import Mathlib

/-!
Formal model of the template-matching action loop of `airtest/core/api.py`
(`check_image_recognition`, `adb_default_tap`, `adb_default_swipe`,
`adb_default_press` and their helpers).

Modelling conventions:
* A matcher candidate (the dict `{"result": (x, y), "rectangle": ..., "confidence": c}`
  returned by `Template.match_all_in`) is a structure with the position and the
  confidence; confidences are rationals standing for the Python floats.
* `Template.match_all_in` together with the screen content of a given round is an
  oracle `Nat → Option (List MatchCandidate)`: `none` models the Python `None`
  ("no match"), `some l` models a returned list.
* Python exceptions are modelled with `Except PyErr`; reading the local variable
  `_result` before any assignment is `PyErr.nameError`, `list[-1]` on an empty
  list is `PyErr.indexError`, a failing backup image write is `PyErr.backupError`
  and a failing UI update is `PyErr.uiError`.
* Side effects on the device and on the filesystem are recorded in an event
  trace (`Event`): sleeps, screenshots (`G.DEVICE.snapshot`), `cv2.imread` reads,
  matcher invocations, touches and swipes.
* The `script_object` attributes that matter to control flow are collected in
  `ScriptObject`: whether backup images are enabled, whether the
  `pyqt6_ui_label_dict` is truthy, and whether the UI update / the backup image
  write succeed when attempted.
-/

namespace Airtest

/-- One matcher candidate: the dict `{"result": (x, y), "confidence": c}` of
`Template.match_all_in` (the bounding rectangle takes no part in the modelled
control flow and is omitted). -/
structure MatchCandidate where
  result : Int × Int
  confidence : ℚ
deriving DecidableEq, Repr

/-- Python exceptions raised by the modelled code. -/
inductive PyErr where
  | nameError : PyErr
  | indexError : PyErr
  | backupError : PyErr
  | uiError : PyErr
deriving DecidableEq, Repr

/-- Device / filesystem side effects, in program order. -/
inductive Event where
  | sleepEv : Event
  | snapshot (idx : Nat) : Event
  | imread (idx : Nat) : Event
  | matchCall (idx : Nat) : Event
  | snapshotMulti (round cap : Nat) : Event
  | matchCallMulti (round cap : Nat) : Event
  | touch (pos : Int × Int) : Event
  | swipeCall (p q : Int × Int) : Event
deriving DecidableEq, Repr

/-- The `script_object` attributes the modelled control flow depends on. -/
structure ScriptObject where
  is_backup_image : Bool
  ui_truthy : Bool
  ui_ok : Bool
  save_ok : Bool
deriving DecidableEq, Repr

/-- Model of `_check_image_name_pngFormat`: return the name unchanged when `".png"`
occurs in it (Python substring containment), otherwise append `".png"`.
Strings are modelled as `List Char`; `containsSub needle hay` is Python's
`needle in hay`. -/
def containsSub (needle : List Char) : List Char → Bool
  | [] => needle.isEmpty
  | c :: cs => needle.isPrefixOf (c :: cs) || containsSub needle cs

/-- Function `_check_image_name_pngFormat` from `api.py`. -/
def check_image_name_pngFormat (name : List Char) : List Char :=
  if containsSub ".png".toList name then name else name ++ ".png".toList

/-- Python's `s.endswith(suffix)`, used only to state claims about the results
of `check_image_name_pngFormat`. -/
def endsWithSub (suffix s : List Char) : Bool :=
  suffix.reverse.isPrefixOf s.reverse

/-- The comparison key of `sorted(_result, key=lambda d: d["confidence"])`. -/
def confLe (a b : MatchCandidate) : Bool :=
  decide (a.confidence ≤ b.confidence)

/-- Model of `sorted(_result, key=lambda d: d["confidence"])`: stable ascending sort by
confidence. -/
def sortedByConfidence (l : List MatchCandidate) : List MatchCandidate :=
  l.mergeSort confLe

/-- Python `list[-1]`: the last element, or an `IndexError` on an empty list. -/
def pyLast {α : Type} (l : List α) : Except PyErr α :=
  match l.getLast? with
  | some a => Except.ok a
  | none => Except.error PyErr.indexError

/-- Model of `_send_log_to_ui`: a falsy `pyqt6_ui_label_dict` is a no-op; a truthy one
runs the label update, which may raise. -/
def send_log_to_ui (s : ScriptObject) : Except PyErr Unit :=
  if s.ui_truthy then
    (if s.ui_ok then Except.ok () else Except.error PyErr.uiError)
  else Except.ok ()

/-- Model of `_send_image_path_to_ui`: a falsy `pyqt6_ui_label_dict` is a no-op; a
truthy one reads the image and updates the label, which may raise. -/
def send_image_path_to_ui (s : ScriptObject) : Except PyErr Unit :=
  if s.ui_truthy then
    (if s.ui_ok then Except.ok () else Except.error PyErr.uiError)
  else Except.ok ()

/-- Model of `_back_up_image`: when `is_backup_image` is set, save the screen image,
which may raise; otherwise a no-op. -/
def back_up_image (s : ScriptObject) : Except PyErr Unit :=
  if s.is_backup_image then
    (if s.save_ok then Except.ok () else Except.error PyErr.backupError)
  else Except.ok ()

/-- The confirmed-path epilogue of `check_image_recognition` in single-capture
mode (lines 814-819): log (pure), `_send_log_to_ui`, `_send_image_path_to_ui`,
`_back_up_image`, then `return _best_result`; any exception propagates. -/
def success_epilogue (s : ScriptObject) (best : List MatchCandidate) :
    Except PyErr (Option (List MatchCandidate)) :=
  match send_log_to_ui s with
  | Except.error e => Except.error e
  | Except.ok _ =>
    match send_image_path_to_ui s with
    | Except.error e => Except.error e
    | Except.ok _ =>
      match back_up_image s with
      | Except.error e => Except.error e
      | Except.ok _ => Except.ok (some best)

/-- Model of `_false_log(_result)` followed by `return False`.  The argument is the
state of the local variable `_result`: `none` when it was never assigned
(reading it raises `NameError`), `some none` when the matcher last returned
`None`, `some (some res)` when it last returned the list `res`.  In the list
case the log message evaluates `sorted(__result)[-1]` and the backup call
evaluates `_result[-1]`, each an `IndexError` on an empty list. -/
def false_log (s : ScriptObject) :
    Option (Option (List MatchCandidate)) →
    Except PyErr (Option (List MatchCandidate))
  | none => Except.error PyErr.nameError
  | some none =>
    match send_log_to_ui s with
    | Except.error e => Except.error e
    | Except.ok _ =>
      match send_image_path_to_ui s with
      | Except.error e => Except.error e
      | Except.ok _ =>
        match back_up_image s with
        | Except.error e => Except.error e
        | Except.ok _ => Except.ok none
  | some (some res) =>
    match pyLast (sortedByConfidence res) with
    | Except.error e => Except.error e
    | Except.ok _ =>
      match send_log_to_ui s with
      | Except.error e => Except.error e
      | Except.ok _ =>
        match send_image_path_to_ui s with
        | Except.error e => Except.error e
        | Except.ok _ =>
          match pyLast res with
          | Except.error e => Except.error e
          | Except.ok _ =>
            match back_up_image s with
            | Except.error e => Except.error e
            | Except.ok _ => Except.ok none

/-- The device / filesystem events of one comparison round in single-capture
mode: with `is_refresh_screenshot` a sleep and a fresh screenshot, otherwise a
`cv2.imread` of the saved file; then the matcher invocation. -/
def roundEvents (refresh : Bool) (idx : Nat) : List Event :=
  (if refresh then [Event.sleepEv, Event.snapshot idx] else [Event.imread idx])
    ++ [Event.matchCall idx]

/-- The `for _num in range(compare_times_counter)` loop of the
`repeatedly_screenshot_times == 1` branch of `check_image_recognition`.
`fuel` is the number of rounds left, `idx` the index of the current round and
`last` the state of the local variable `_result` (see `false_log`).  Each round
acquires a screen, invokes the matcher; on a list result it sorts by
confidence, and when the best confidence strictly exceeds `accuracy_val` it
runs the confirmed epilogue and returns.  When the rounds are exhausted it runs
`_false_log(_result)` and returns `False` (modelled `none`). -/
def checkLoop (matcher : Nat → Option (List MatchCandidate)) (accuracy_val : ℚ)
    (s : ScriptObject) (refresh : Bool) :
    Nat → Nat → Option (Option (List MatchCandidate)) →
    Except PyErr (Option (List MatchCandidate)) × List Event
  | 0, _, last => (false_log s last, [])
  | fuel+1, idx, _ =>
    let ev := roundEvents refresh idx
    match matcher idx with
    | none =>
      let r := checkLoop matcher accuracy_val s refresh fuel (idx+1) (some none)
      (r.1, ev ++ r.2)
    | some res =>
      match (sortedByConfidence res).getLast? with
      | none => (Except.error PyErr.indexError, ev)
      | some best =>
        if best.confidence > accuracy_val then
          (success_epilogue s (sortedByConfidence res), ev)
        else
          let r :=
            checkLoop matcher accuracy_val s refresh fuel (idx+1) (some (some res))
          (r.1, ev ++ r.2)

/-- Model of `check_image_recognition` in single-capture mode
(`repeatedly_screenshot_times == 1`): run `compare_times_counter` comparison
rounds.  Returns the confirmed sorted candidate list (`some l`), `False`
(`none`), or a raised exception, together with the trace of device /
filesystem events. -/
def check_image_recognition (matcher : Nat → Option (List MatchCandidate))
    (accuracy_val : ℚ) (s : ScriptObject) (refresh : Bool)
    (compare_times_counter : Nat) :
    Except PyErr (Option (List MatchCandidate)) × List Event :=
  checkLoop matcher accuracy_val s refresh compare_times_counter 0 none

/-- The confirmed-path epilogue of the multi-capture branch (lines 843-847):
log (pure), `_back_up_image`, then `return _best_result`; no UI calls. -/
def success_epilogue_multi (s : ScriptObject) (best : List MatchCandidate) :
    Except PyErr (Option (List MatchCandidate)) :=
  match back_up_image s with
  | Except.error e => Except.error e
  | Except.ok _ => Except.ok (some best)

/-- The `for _screen in _screen_list` inner loop of the multi-capture branch:
one matcher invocation per capture of the round, each capture's result sorted
and compared against `accuracy_val` on its own.  Returns `some outcome` when
the round returned early (confirmed or raised), or `none` together with the
final state of `_result` when the round fell through.  `fuel` is the number of
captures left and `cap` the current capture index; `last` is the incoming state
of `_result`. -/
def checkMultiInner (matcher : Nat → Nat → Option (List MatchCandidate))
    (accuracy_val : ℚ) (s : ScriptObject) (round : Nat) :
    Nat → Nat → Option (Option (List MatchCandidate)) →
    Option (Except PyErr (Option (List MatchCandidate))) × List Event ×
      Option (Option (List MatchCandidate))
  | 0, _, last => (none, [], last)
  | fuel+1, cap, _ =>
    let ev := [Event.matchCallMulti round cap]
    match matcher round cap with
    | none =>
      let r := checkMultiInner matcher accuracy_val s round fuel (cap+1) (some none)
      (r.1, ev ++ r.2.1, r.2.2)
    | some res =>
      match (sortedByConfidence res).getLast? with
      | none => (some (Except.error PyErr.indexError), ev, some (some res))
      | some best =>
        if best.confidence > accuracy_val then
          (some (success_epilogue_multi s (sortedByConfidence res)), ev,
            some (some res))
        else
          let r :=
            checkMultiInner matcher accuracy_val s round fuel (cap+1)
              (some (some res))
          (r.1, ev ++ r.2.1, r.2.2)

/-- The `for _num in range(compare_times_counter)` outer loop of the
multi-capture branch: each round first takes a screenshot for every capture
name, then runs the inner per-capture loop. -/
def checkMultiLoop (matcher : Nat → Nat → Option (List MatchCandidate))
    (accuracy_val : ℚ) (s : ScriptObject) (caps : Nat) :
    Nat → Nat → Option (Option (List MatchCandidate)) →
    Except PyErr (Option (List MatchCandidate)) × List Event
  | 0, _, last => (false_log s last, [])
  | fuel+1, round, last =>
    let snapEv := (List.range caps).map (Event.snapshotMulti round)
    let inner := checkMultiInner matcher accuracy_val s round caps 0 last
    match inner.1 with
    | some outcome => (outcome, snapEv ++ inner.2.1)
    | none =>
      let rest := checkMultiLoop matcher accuracy_val s caps fuel (round+1) inner.2.2
      (rest.1, snapEv ++ inner.2.1 ++ rest.2)

/-- Model of `check_image_recognition` in multi-capture mode
(`repeatedly_screenshot_times > 1`): one initial sleep, then
`compare_times_counter` rounds, each snapshotting `caps` captures and matching
them one after the other. -/
def check_image_recognition_multi
    (matcher : Nat → Nat → Option (List MatchCandidate)) (accuracy_val : ℚ)
    (s : ScriptObject) (caps : Nat) (compare_times_counter : Nat) :
    Except PyErr (Option (List MatchCandidate)) × List Event :=
  let r := checkMultiLoop matcher accuracy_val s caps compare_times_counter 0 none
  (r.1, Event.sleepEv :: r.2)

/-- Modelled from the spec (section 4.1), for comparison with the source's
multi-capture branch: "run the Matcher against each capture in the sequence,
pool all resulting candidates across captures within the round" — the pooled
candidate list of one round. -/
def pooledCandidates (matcher : Nat → Nat → Option (List MatchCandidate)) :
    Nat → Nat → List MatchCandidate
  | 0, _ => []
  | caps+1, round =>
    pooledCandidates matcher caps round ++ ((matcher round caps).getD [])

/-- Modelled from the spec (section 4.1), for comparison with the source's
multi-capture branch: per round pool the candidates across captures, "pick the
maximum-confidence candidate" and confirm it when it exceeds `accuracy_val`,
short-circuiting the remaining rounds. -/
def evaluate_pooled (matcher : Nat → Nat → Option (List MatchCandidate))
    (caps : Nat) (accuracy_val : ℚ) :
    Nat → Nat → Option MatchCandidate
  | 0, _ => none
  | fuel+1, round =>
    match (sortedByConfidence (pooledCandidates matcher caps round)).getLast? with
    | some best =>
      if best.confidence > accuracy_val then some best
      else evaluate_pooled matcher caps accuracy_val fuel (round+1)
    | none => evaluate_pooled matcher caps accuracy_val fuel (round+1)

/-- The dispatch loop of `adb_default_tap` (lines 900-902): for each of the
`tap_execute_counter_times` repetitions, `time.sleep(tap_execute_wait_time)`
then `click((_x, _y))` — a sleep before every touch, the first included. -/
def tapCalls (pos : Int × Int) : Nat → List Event
  | 0 => []
  | n+1 => Event.sleepEv :: Event.touch pos :: tapCalls pos n

/-- The dispatch loop of `adb_default_swipe` / `adb_default_press`
(lines 961-963 and 1007-1009): for each repetition a sleep then
`swipe(p, q, duration=...)`. -/
def swipeCalls (p q : Int × Int) : Nat → List Event
  | 0 => []
  | n+1 => Event.sleepEv :: Event.swipeCall p q :: swipeCalls p q n

/-- Modelled from the spec (section 4.3), for comparison with the source's tap
dispatch loop: "issue `repetitions` touch calls at `final_position`, sleeping
`inter_repetition_delay` before each repetition after the first" — so no sleep
before the first touch. -/
def specTapCalls (pos : Int × Int) : Nat → List Event
  | 0 => []
  | n+1 => Event.touch pos :: tapCalls pos n

/-- Model of `map(sum, zip(_pos, tap_offset))`: componentwise integer addition of the
matched position and the caller-supplied offset. -/
def addOffset (pos off : Int × Int) : Int × Int :=
  (pos.1 + off.1, pos.2 + off.2)

/-- Model of `adb_default_tap`: run `check_image_recognition`; on `False` log and return
`False` with no device call; otherwise read `_result[-1]["result"]`, add the
offset and run the tap dispatch loop, returning `True`. -/
def adb_default_tap (matcher : Nat → Option (List MatchCandidate))
    (accuracy_val : ℚ) (s : ScriptObject) (refresh : Bool)
    (compare_times_counter : Nat) (tap_offset : Int × Int)
    (tap_execute_counter_times : Nat) : Except PyErr Bool × List Event :=
  let r := check_image_recognition matcher accuracy_val s refresh compare_times_counter
  match r.1 with
  | Except.error e => (Except.error e, r.2)
  | Except.ok none => (Except.ok false, r.2)
  | Except.ok (some l) =>
    match l.getLast? with
    | none => (Except.error PyErr.indexError, r.2)
    | some c =>
      (Except.ok true,
        r.2 ++ tapCalls (addOffset c.result tap_offset) tap_execute_counter_times)

/-- Model of `adb_default_swipe`: like `adb_default_tap`, but each repetition swipes
from the matched position to the matched position plus the offset. -/
def adb_default_swipe (matcher : Nat → Option (List MatchCandidate))
    (accuracy_val : ℚ) (s : ScriptObject) (refresh : Bool)
    (compare_times_counter : Nat) (swipe_offset_position : Int × Int)
    (swipe_execute_counter_times : Nat) : Except PyErr Bool × List Event :=
  let r := check_image_recognition matcher accuracy_val s refresh compare_times_counter
  match r.1 with
  | Except.error e => (Except.error e, r.2)
  | Except.ok none => (Except.ok false, r.2)
  | Except.ok (some l) =>
    match l.getLast? with
    | none => (Except.error PyErr.indexError, r.2)
    | some c =>
      (Except.ok true,
        r.2 ++ swipeCalls c.result (addOffset c.result swipe_offset_position)
          swipe_execute_counter_times)

/-- Model of `adb_default_press`: like `adb_default_swipe` with a zero-displacement
swipe from the matched position to itself. -/
def adb_default_press (matcher : Nat → Option (List MatchCandidate))
    (accuracy_val : ℚ) (s : ScriptObject) (refresh : Bool)
    (compare_times_counter : Nat)
    (press_execute_counter_times : Nat) : Except PyErr Bool × List Event :=
  let r := check_image_recognition matcher accuracy_val s refresh compare_times_counter
  match r.1 with
  | Except.error e => (Except.error e, r.2)
  | Except.ok none => (Except.ok false, r.2)
  | Except.ok (some l) =>
    match l.getLast? with
    | none => (Except.error PyErr.indexError, r.2)
    | some c =>
      (Except.ok true,
        r.2 ++ swipeCalls c.result c.result press_execute_counter_times)

/-- Whether an event is a device interaction (a touch or a swipe). -/
def isDeviceAction : Event → Bool
  | Event.touch _ => true
  | Event.swipeCall _ _ => true
  | _ => false

/-- Whether an event is a touch. -/
def isTouchEvent : Event → Bool
  | Event.touch _ => true
  | _ => false

/-- A `script_object` with backups disabled and a falsy UI dict: every side
effect of the recorder succeeds trivially. -/
def sBenign : ScriptObject :=
  { is_backup_image := false, ui_truthy := false, ui_ok := false, save_ok := false }

/-- A `script_object` with backups enabled and an unwritable backup store, and
a falsy UI dict. -/
def sBackupFail : ScriptObject :=
  { is_backup_image := true, ui_truthy := false, ui_ok := false, save_ok := false }

/-- A matcher oracle that finds one candidate at `(10, 20)` with confidence
`95/100` in every round. -/
def matcherHit : Nat → Option (List MatchCandidate) :=
  fun _ => some [{ result := (10, 20), confidence := 95/100 }]

/-- A matcher oracle that never finds anything. -/
def matcherMiss : Nat → Option (List MatchCandidate) :=
  fun _ => none

/-- A multi-capture matcher oracle: in round 0, capture 0 yields confidence
`95/100` at `(1, 1)` and capture 1 yields confidence `99/100` at `(2, 2)`. -/
def matcherTwoCaps : Nat → Nat → Option (List MatchCandidate)
  | 0, 0 => some [{ result := (1, 1), confidence := 95/100 }]
  | 0, 1 => some [{ result := (2, 2), confidence := 99/100 }]
  | _, _ => none

/-! ### Lemmas about the confidence sort -/

theorem confLe_trans :
    ∀ a b c : MatchCandidate,
      confLe a b = true → confLe b c = true → confLe a c = true := by
  intro a b c hab hbc
  simp only [confLe, decide_eq_true_eq] at *
  exact le_trans hab hbc

theorem confLe_total :
    ∀ a b : MatchCandidate, (confLe a b || confLe b a) = true := by
  intro a b
  simp only [confLe, Bool.or_eq_true, decide_eq_true_eq]
  exact le_total a.confidence b.confidence

theorem sortedByConfidence_perm (l : List MatchCandidate) :
    (sortedByConfidence l).Perm l :=
  List.mergeSort_perm l confLe

theorem sortedByConfidence_pairwise (l : List MatchCandidate) :
    List.Pairwise (fun a b => confLe a b = true) (sortedByConfidence l) :=
  List.sorted_mergeSort confLe_trans confLe_total l

theorem sortedByConfidence_ne_nil {l : List MatchCandidate} (hl : l ≠ []) :
    sortedByConfidence l ≠ [] := by
  intro h
  exact hl (((h ▸ sortedByConfidence_perm l).symm).eq_nil)

/-- Getting `l.getLast? = some a` implies `a ∈ l`. -/
theorem mem_of_getLast?_eq {α : Type} :
    ∀ {l : List α} {a : α}, l.getLast? = some a → a ∈ l
  | [], _, h => by cases h
  | [x], a, h => by
    have hx : a = x := by
      simpa using h.symm
    subst hx; exact List.mem_singleton_self a
  | x :: y :: t, a, h => by
    rw [List.getLast?_cons_cons] at h
    exact List.mem_cons_of_mem x (mem_of_getLast?_eq h)

/-- In a list sorted weakly increasingly by confidence, every element's
confidence is at most the last element's. -/
theorem pairwise_confLe_getLast :
    ∀ {l : List MatchCandidate} {b : MatchCandidate},
      List.Pairwise (fun a b => confLe a b = true) l → l.getLast? = some b →
      ∀ a ∈ l, a.confidence ≤ b.confidence
  | [], _, _, _, _, ha => by cases ha
  | [x], b, _, hlast, a, ha => by
    have hx : b = x := by
      simpa using hlast.symm
    have hax : a = x := by simpa using ha
    subst hx; subst hax; exact le_refl _
  | x :: y :: t, b, hp, hlast, a, ha => by
    rw [List.getLast?_cons_cons] at hlast
    rcases List.pairwise_cons.mp hp with ⟨hx, hrest⟩
    rcases List.mem_cons.mp ha with h | h
    · subst h
      have hb : b ∈ y :: t := mem_of_getLast?_eq hlast
      have := hx b hb
      simpa only [confLe, decide_eq_true_eq] using this
    · exact pairwise_confLe_getLast hrest hlast a h

/-- The candidate selected by `sorted(...)[-1]`: it exists for a non-empty
input, belongs to the input, and its confidence dominates the input. -/
theorem sortedBest_spec (l : List MatchCandidate) (hl : l ≠ []) :
    ∃ b, (sortedByConfidence l).getLast? = some b ∧ b ∈ l ∧
      ∀ a ∈ l, a.confidence ≤ b.confidence := by
  have hs : sortedByConfidence l ≠ [] := sortedByConfidence_ne_nil hl
  rcases Option.isSome_iff_exists.mp (List.getLast?_isSome.mpr hs) with ⟨b, hb⟩
  refine ⟨b, hb, ?_, ?_⟩
  · exact (sortedByConfidence_perm l).mem_iff.mp (mem_of_getLast?_eq hb)
  · intro a ha
    exact pairwise_confLe_getLast (sortedByConfidence_pairwise l) hb a
      ((sortedByConfidence_perm l).mem_iff.mpr ha)

/-- The selected confidence strictly exceeds a threshold iff some input
candidate's confidence does. -/
theorem best_gt_iff {l : List MatchCandidate} {b : MatchCandidate}
    (hb : (sortedByConfidence l).getLast? = some b) (acc : ℚ) :
    b.confidence > acc ↔ ∃ c ∈ l, c.confidence > acc := by
  have hl : l ≠ [] := by
    intro h
    subst h
    simp [sortedByConfidence, List.mergeSort_nil] at hb
  rcases sortedBest_spec l hl with ⟨b', hb', hmem, hmax⟩
  have hbb : b' = b := by
    rw [hb] at hb'; exact (Option.some.inj hb').symm
  subst hbb
  constructor
  · intro h; exact ⟨b', hmem, h⟩
  · rintro ⟨c, hc, hcacc⟩
    exact lt_of_lt_of_le hcacc (hmax c hc)

/-! ### Side-effect lemmas -/

/-- A `script_object` whose recorder side effects succeed when attempted:
the UI update succeeds whenever the UI dict is truthy, and the backup write
succeeds whenever backups are enabled. -/
def Benign (s : ScriptObject) : Prop :=
  (s.ui_truthy = true → s.ui_ok = true) ∧
  (s.is_backup_image = true → s.save_ok = true)

theorem send_log_to_ui_benign {s : ScriptObject} (h : Benign s) :
    send_log_to_ui s = Except.ok () := by
  unfold send_log_to_ui
  cases hu : s.ui_truthy with
  | false => simp
  | true => simp [h.1 hu]

theorem send_image_path_to_ui_benign {s : ScriptObject} (h : Benign s) :
    send_image_path_to_ui s = Except.ok () := by
  unfold send_image_path_to_ui
  cases hu : s.ui_truthy with
  | false => simp
  | true => simp [h.1 hu]

theorem back_up_image_benign {s : ScriptObject} (h : Benign s) :
    back_up_image s = Except.ok () := by
  unfold back_up_image
  cases hb : s.is_backup_image with
  | false => simp
  | true => simp [h.2 hb]

theorem success_epilogue_benign {s : ScriptObject} (h : Benign s)
    (best : List MatchCandidate) :
    success_epilogue s best = Except.ok (some best) := by
  unfold success_epilogue
  rw [send_log_to_ui_benign h, send_image_path_to_ui_benign h,
    back_up_image_benign h]

theorem success_epilogue_multi_benign {s : ScriptObject}
    (h : s.is_backup_image = true → s.save_ok = true)
    (best : List MatchCandidate) :
    success_epilogue_multi s best = Except.ok (some best) := by
  unfold success_epilogue_multi back_up_image
  cases hb : s.is_backup_image with
  | false => simp
  | true => simp [h hb]

/-- The admissible states of the local `_result` when `_false_log` runs after
a loop that executed at least one round. -/
def GoodLast : Option (Option (List MatchCandidate)) → Prop
  | none => False
  | some none => True
  | some (some res) => res ≠ []

theorem false_log_benign {s : ScriptObject}
    {last : Option (Option (List MatchCandidate))} (hb : Benign s)
    (hg : GoodLast last) : false_log s last = Except.ok none := by
  cases last with
  | none => exact absurd hg (by simp [GoodLast])
  | some o =>
    cases o with
    | none =>
      simp only [false_log]
      rw [send_log_to_ui_benign hb, send_image_path_to_ui_benign hb,
        back_up_image_benign hb]
    | some res =>
      have hres : res ≠ [] := hg
      have h1 : sortedByConfidence res ≠ [] := sortedByConfidence_ne_nil hres
      rcases Option.isSome_iff_exists.mp (List.getLast?_isSome.mpr h1) with ⟨b, hb1⟩
      rcases Option.isSome_iff_exists.mp (List.getLast?_isSome.mpr hres) with ⟨c, hc1⟩
      simp only [false_log, pyLast]
      rw [hb1, hc1, send_log_to_ui_benign hb, send_image_path_to_ui_benign hb,
        back_up_image_benign hb]

theorem false_log_ne_confirmed (s : ScriptObject)
    (last : Option (Option (List MatchCandidate))) (l : List MatchCandidate) :
    false_log s last ≠ Except.ok (some l) := by
  cases last with
  | none => simp [false_log]
  | some o =>
    cases o with
    | none =>
      simp only [false_log]
      intro h
      repeat first
        | (split at h; try cases h)
        | cases h
    | some res =>
      simp only [false_log]
      intro h
      repeat first
        | (split at h; try cases h)
        | cases h

/-! ### Lemmas about the single-capture comparison loop -/

/-- A matcher outcome of one round that does not confirm: either `None`, or a
non-empty list all of whose confidences are at most the threshold. -/
def NoSuccess (o : Option (List MatchCandidate)) (acc : ℚ) : Prop :=
  ∀ res, o = some res → res ≠ [] ∧ ∀ c ∈ res, c.confidence ≤ acc

/-- The event trace of `n` consecutive single-capture rounds starting at round
index `idx`. -/
def roundTrace (refresh : Bool) : Nat → Nat → List Event
  | _, 0 => []
  | idx, n+1 => roundEvents refresh idx ++ roundTrace refresh (idx+1) n

/-- If no round in the window confirms, the loop falls through to
`_false_log` and returns `False`, provided the recorder side effects succeed
and the loop either executed a round or starts in a readable `_result`
state. -/
theorem checkLoop_all_fail (m : Nat → Option (List MatchCandidate)) (acc : ℚ)
    (s : ScriptObject) (refresh : Bool) :
    ∀ (fuel idx : Nat) (last : Option (Option (List MatchCandidate))),
      Benign s → (∀ j, j < fuel → NoSuccess (m (idx + j)) acc) →
      (fuel = 0 → GoodLast last) →
      (checkLoop m acc s refresh fuel idx last).1 = Except.ok none := by
  intro fuel
  induction fuel with
  | zero =>
    intro idx last hb _ hg
    simpa [checkLoop] using false_log_benign hb (hg rfl)
  | succ fuel ih =>
    intro idx last hb hall _
    simp only [checkLoop]
    cases hm0 : m idx with
    | none =>
      simp only
      exact ih (idx+1) (some none) hb
        (fun j hj => by
          have := hall (j+1) (by omega)
          simpa [Nat.add_assoc, Nat.add_comm 1 j] using this)
        (fun _ => by simp [GoodLast])
    | some res =>
      rcases (hall 0 (by omega)) res (by simpa using hm0) with ⟨hres, hle⟩
      rcases sortedBest_spec res hres with ⟨b, hb1, hbmem, _⟩
      simp only [hb1]
      have hnotgt : ¬ b.confidence > acc := not_lt.mpr (hle b hbmem)
      rw [if_neg hnotgt]
      simp only
      exact ih (idx+1) (some (some res)) hb
        (fun j hj => by
          have := hall (j+1) (by omega)
          simpa [Nat.add_assoc, Nat.add_comm 1 j] using this)
        (fun _ => hres)

/-- A confirmed return of the loop implies a round whose matcher output has a
candidate whose confidence strictly exceeds the threshold. -/
theorem checkLoop_confirmed_exists (m : Nat → Option (List MatchCandidate))
    (acc : ℚ) (s : ScriptObject) (refresh : Bool) :
    ∀ (fuel idx : Nat) (last : Option (Option (List MatchCandidate)))
      (l : List MatchCandidate),
      (checkLoop m acc s refresh fuel idx last).1 = Except.ok (some l) →
      ∃ j, j < fuel ∧ ∃ res, m (idx + j) = some res ∧
        ∃ c ∈ res, c.confidence > acc := by
  intro fuel
  induction fuel with
  | zero =>
    intro idx last l h
    exact absurd h (by simpa [checkLoop] using false_log_ne_confirmed s last l)
  | succ fuel ih =>
    intro idx last l h
    simp only [checkLoop] at h
    cases hm0 : m idx with
    | none =>
      rw [hm0] at h
      simp only at h
      rcases ih (idx+1) (some none) l h with ⟨j, hj, res, hres, hc⟩
      exact ⟨j+1, by omega, res, by
        rw [show idx + (j+1) = idx + 1 + j by omega]; exact hres, hc⟩
    | some res =>
      rw [hm0] at h
      simp only at h
      cases hb1 : (sortedByConfidence res).getLast? with
      | none =>
        rw [hb1] at h
        simp only at h
        cases h
      | some b =>
        rw [hb1] at h
        simp only at h
        by_cases hgt : b.confidence > acc
        · exact ⟨0, by omega, res, by simpa using hm0,
            (best_gt_iff hb1 acc).mp hgt⟩
        · rw [if_neg hgt] at h
          simp only at h
          rcases ih (idx+1) (some (some res)) l h with ⟨j, hj, res', hres', hc⟩
          exact ⟨j+1, by omega, res', by
            rw [show idx + (j+1) = idx + 1 + j by omega]; exact hres', hc⟩

/-- If some round in the window confirms, the loop returns a confirmed list,
provided the matcher never returns an empty list and the recorder side
effects succeed. -/
theorem checkLoop_confirm (m : Nat → Option (List MatchCandidate)) (acc : ℚ)
    (s : ScriptObject) (refresh : Bool) :
    ∀ (fuel idx : Nat) (last : Option (Option (List MatchCandidate))),
      Benign s → (∀ j, m j ≠ some []) →
      (∃ j, j < fuel ∧ ∃ res, m (idx + j) = some res ∧
        ∃ c ∈ res, c.confidence > acc) →
      ∃ l, (checkLoop m acc s refresh fuel idx last).1 = Except.ok (some l) := by
  intro fuel
  induction fuel with
  | zero =>
    rintro idx last _ _ ⟨j, hj, _⟩
    omega
  | succ fuel ih =>
    rintro idx last hb hm ⟨j, hj, res, hres, hc⟩
    simp only [checkLoop]
    cases hm0 : m idx with
    | none =>
      simp only
      have hj0 : j ≠ 0 := by
        intro h0
        subst h0
        simp only [Nat.add_zero] at hres
        rw [hm0] at hres
        cases hres
      exact ih (idx+1) (some none) hb hm
        ⟨j-1, by omega, res, by
          rw [show idx + 1 + (j-1) = idx + j by omega]; exact hres, hc⟩
    | some res0 =>
      have hres0 : res0 ≠ [] := by
        intro h0; subst h0; exact hm idx hm0
      rcases sortedBest_spec res0 hres0 with ⟨b, hb1, _, hbmax⟩
      simp only [hb1]
      by_cases hgt : b.confidence > acc
      · rw [if_pos hgt]
        exact ⟨sortedByConfidence res0, by
          simpa using success_epilogue_benign hb (sortedByConfidence res0)⟩
      · rw [if_neg hgt]
        simp only
        have hj0 : j ≠ 0 := by
          intro h0
          subst h0
          simp only [Nat.add_zero] at hres
          rw [hm0] at hres
          rcases hc with ⟨c, hcmem, hcgt⟩
          have : c ∈ res0 := by
            cases hres; exact hcmem
          exact hgt (lt_of_lt_of_le hcgt (hbmax c this))
        exact ih (idx+1) (some (some res0)) hb hm
          ⟨j-1, by omega, res, by
            rw [show idx + 1 + (j-1) = idx + j by omega]; exact hres, hc⟩

/-- First-success characterization: if round `idx + d` is the first round in
the window that confirms, the loop stops there — its result is the confirmed
epilogue on the sorted candidates of that round and its trace contains exactly
the events of rounds `idx, ..., idx + d`. -/
theorem checkLoop_first_success (m : Nat → Option (List MatchCandidate))
    (acc : ℚ) (s : ScriptObject) (refresh : Bool) :
    ∀ (d fuel idx : Nat) (last : Option (Option (List MatchCandidate)))
      (res : List MatchCandidate),
      d < fuel →
      (∀ j, j < d → NoSuccess (m (idx + j)) acc) →
      m (idx + d) = some res →
      (∃ c ∈ res, c.confidence > acc) →
      checkLoop m acc s refresh fuel idx last
        = (success_epilogue s (sortedByConfidence res),
           roundTrace refresh idx (d+1)) := by
  intro d
  induction d with
  | zero =>
    intro fuel idx last res hd _ hres hc
    cases fuel with
    | zero => omega
    | succ fuel =>
      simp only [Nat.add_zero] at hres
      have hne : res ≠ [] := by
        rintro rfl
        rcases hc with ⟨c, hcmem, _⟩
        cases hcmem
      rcases sortedBest_spec res hne with ⟨b, hb1, _, _⟩
      have hgt : b.confidence > acc := (best_gt_iff hb1 acc).mpr hc
      simp only [checkLoop, hres, hb1, if_pos hgt]
      simp [roundTrace]
  | succ d ih =>
    intro fuel idx last res hd hfirst hres hc
    cases fuel with
    | zero => omega
    | succ fuel =>
      simp only [checkLoop]
      cases hm0 : m idx with
      | none =>
        simp only
        rw [ih fuel (idx+1) (some none) res (by omega)
          (fun j hj => by
            have := hfirst (j+1) (by omega)
            simpa [Nat.add_assoc, Nat.add_comm 1 j] using this)
          (by rw [show idx + 1 + d = idx + (d+1) by omega]; exact hres) hc]
        rfl
      | some res0 =>
        rcases (hfirst 0 (by omega)) res0 (by simpa using hm0) with ⟨hres0, hle⟩
        rcases sortedBest_spec res0 hres0 with ⟨b, hb1, hbmem, _⟩
        simp only [hb1]
        rw [if_neg (not_lt.mpr (hle b hbmem))]
        rw [ih fuel (idx+1) (some (some res0)) res (by omega)
          (fun j hj => by
            have := hfirst (j+1) (by omega)
            simpa [Nat.add_assoc, Nat.add_comm 1 j] using this)
          (by rw [show idx + 1 + d = idx + (d+1) by omega]; exact hres) hc]
        rfl

/-! ### Trace lemmas -/

/-- The round index an evaluation event belongs to, if any. -/
def eventRound : Event → Option Nat
  | Event.snapshot i => some i
  | Event.imread i => some i
  | Event.matchCall i => some i
  | _ => none

theorem mem_roundEvents {refresh : Bool} {idx : Nat} {e : Event}
    (h : e ∈ roundEvents refresh idx) :
    isDeviceAction e = false ∧ ∀ i, eventRound e = some i → i = idx := by
  cases refresh with
  | false =>
    simp [roundEvents] at h
    rcases h with rfl | rfl <;> simp [isDeviceAction, eventRound]
  | true =>
    simp [roundEvents] at h
    rcases h with rfl | rfl | rfl <;> simp [isDeviceAction, eventRound]

theorem mem_roundTrace {refresh : Bool} :
    ∀ {n idx : Nat} {e : Event}, e ∈ roundTrace refresh idx n →
      isDeviceAction e = false ∧
        ∀ i, eventRound e = some i → idx ≤ i ∧ i < idx + n := by
  intro n
  induction n with
  | zero => intro idx e h; cases h
  | succ n ih =>
    intro idx e h
    rcases List.mem_append.mp h with h1 | h1
    · rcases mem_roundEvents h1 with ⟨hd, hi⟩
      exact ⟨hd, fun i hie => by
        have := hi i hie
        omega⟩
    · rcases ih h1 with ⟨hd, hi⟩
      exact ⟨hd, fun i hie => by
        have := hi i hie
        omega⟩

/-- Every event of the single-capture loop trace is a sleep, a screenshot, a
file read or a matcher invocation — never a device touch or swipe. -/
theorem checkLoop_no_device_action (m : Nat → Option (List MatchCandidate))
    (acc : ℚ) (s : ScriptObject) (refresh : Bool) :
    ∀ (fuel idx : Nat) (last : Option (Option (List MatchCandidate)))
      (e : Event), e ∈ (checkLoop m acc s refresh fuel idx last).2 →
      isDeviceAction e = false := by
  intro fuel
  induction fuel with
  | zero => intro idx last e h; cases h
  | succ fuel ih =>
    intro idx last e h
    simp only [checkLoop] at h
    cases hm0 : m idx with
    | none =>
      rw [hm0] at h
      simp only at h
      rcases List.mem_append.mp h with h1 | h1
      · exact (mem_roundEvents h1).1
      · exact ih (idx+1) (some none) e h1
    | some res =>
      rw [hm0] at h
      simp only at h
      cases hb1 : (sortedByConfidence res).getLast? with
      | none =>
        rw [hb1] at h
        simp only at h
        exact (mem_roundEvents h).1
      | some b =>
        rw [hb1] at h
        simp only at h
        by_cases hgt : b.confidence > acc
        · rw [if_pos hgt] at h
          exact (mem_roundEvents h).1
        · rw [if_neg hgt] at h
          simp only at h
          rcases List.mem_append.mp h with h1 | h1
          · exact (mem_roundEvents h1).1
          · exact ih (idx+1) (some (some res)) e h1

theorem mem_tapCalls {pos : Int × Int} :
    ∀ {n : Nat} {e : Event}, e ∈ tapCalls pos n →
      e = Event.sleepEv ∨ e = Event.touch pos := by
  intro n
  induction n with
  | zero => intro e h; cases h
  | succ n ih =>
    intro e h
    rcases List.mem_cons.mp h with rfl | h1
    · exact Or.inl rfl
    · rcases List.mem_cons.mp h1 with rfl | h2
      · exact Or.inr rfl
      · exact ih h2

theorem mem_swipeCalls {p q : Int × Int} :
    ∀ {n : Nat} {e : Event}, e ∈ swipeCalls p q n →
      e = Event.sleepEv ∨ e = Event.swipeCall p q := by
  intro n
  induction n with
  | zero => intro e h; cases h
  | succ n ih =>
    intro e h
    rcases List.mem_cons.mp h with rfl | h1
    · exact Or.inl rfl
    · rcases List.mem_cons.mp h1 with rfl | h2
      · exact Or.inr rfl
      · exact ih h2

theorem tapCalls_filter_touch (pos : Int × Int) :
    ∀ n : Nat, ((tapCalls pos n).filter isTouchEvent).length = n := by
  intro n
  induction n with
  | zero => rfl
  | succ n ih =>
    simp only [tapCalls, List.filter_cons]
    simp [isTouchEvent, ih]

/-! ### Lemmas about the multi-capture loop -/

theorem mem_pooledCandidates (m : Nat → Nat → Option (List MatchCandidate)) :
    ∀ (caps round : Nat) (c : MatchCandidate),
      c ∈ pooledCandidates m caps round ↔
        ∃ j, j < caps ∧ ∃ res, m round j = some res ∧ c ∈ res := by
  intro caps
  induction caps with
  | zero => intro round c; simp [pooledCandidates]
  | succ caps ih =>
    intro round c
    simp only [pooledCandidates, List.mem_append]
    rw [ih]
    constructor
    · rintro (⟨j, hj, res, hres, hc⟩ | h)
      · exact ⟨j, by omega, res, hres, hc⟩
      · cases hm0 : m round caps with
        | none =>
          rw [hm0] at h
          simp [Option.getD] at h
        | some res =>
          rw [hm0] at h
          exact ⟨caps, by omega, res, hm0, by simpa [Option.getD] using h⟩
    · rintro ⟨j, hj, res, hres, hc⟩
      by_cases hjc : j < caps
      · exact Or.inl ⟨j, hjc, res, hres, hc⟩
      · have hje : j = caps := by omega
        subst hje
        refine Or.inr ?_
        rw [hres]
        simpa [Option.getD] using hc

/-- If no capture of the round confirms, the per-capture inner loop falls
through. -/
theorem checkMultiInner_none (m : Nat → Nat → Option (List MatchCandidate))
    (acc : ℚ) (s : ScriptObject) (round : Nat) :
    ∀ (fuel cap : Nat) (last : Option (Option (List MatchCandidate))),
      (∀ j, j < fuel → NoSuccess (m round (cap + j)) acc) →
      (checkMultiInner m acc s round fuel cap last).1 = none := by
  intro fuel
  induction fuel with
  | zero => intro cap last _; rfl
  | succ fuel ih =>
    intro cap last hall
    simp only [checkMultiInner]
    cases hm0 : m round cap with
    | none =>
      simp only
      exact ih (cap+1) (some none)
        (fun j hj => by
          have := hall (j+1) (by omega)
          simpa [Nat.add_assoc, Nat.add_comm 1 j] using this)
    | some res =>
      rcases (hall 0 (by omega)) res (by simpa using hm0) with ⟨hres, hle⟩
      rcases sortedBest_spec res hres with ⟨b, hb1, hbmem, _⟩
      simp only [hb1]
      rw [if_neg (not_lt.mpr (hle b hbmem))]
      simp only
      exact ih (cap+1) (some (some res))
        (fun j hj => by
          have := hall (j+1) (by omega)
          simpa [Nat.add_assoc, Nat.add_comm 1 j] using this)

/-- A confirmed early return of the inner loop implies a capture whose matcher
output has a candidate above the threshold. -/
theorem checkMultiInner_confirmed_exists
    (m : Nat → Nat → Option (List MatchCandidate)) (acc : ℚ)
    (s : ScriptObject) (round : Nat) :
    ∀ (fuel cap : Nat) (last : Option (Option (List MatchCandidate)))
      (l : List MatchCandidate),
      (checkMultiInner m acc s round fuel cap last).1
        = some (Except.ok (some l)) →
      ∃ j, j < fuel ∧ ∃ res, m round (cap + j) = some res ∧
        ∃ c ∈ res, c.confidence > acc := by
  intro fuel
  induction fuel with
  | zero => intro cap last l h; cases h
  | succ fuel ih =>
    intro cap last l h
    simp only [checkMultiInner] at h
    cases hm0 : m round cap with
    | none =>
      rw [hm0] at h
      simp only at h
      rcases ih (cap+1) (some none) l h with ⟨j, hj, res, hres, hc⟩
      exact ⟨j+1, by omega, res, by
        rw [show cap + (j+1) = cap + 1 + j by omega]; exact hres, hc⟩
    | some res =>
      rw [hm0] at h
      simp only at h
      cases hb1 : (sortedByConfidence res).getLast? with
      | none =>
        rw [hb1] at h
        simp only at h
        simp at h
      | some b =>
        rw [hb1] at h
        simp only at h
        by_cases hgt : b.confidence > acc
        · exact ⟨0, by omega, res, by simpa using hm0,
            (best_gt_iff hb1 acc).mp hgt⟩
        · rw [if_neg hgt] at h
          simp only at h
          rcases ih (cap+1) (some (some res)) l h with ⟨j, hj, res', hres', hc⟩
          exact ⟨j+1, by omega, res', by
            rw [show cap + (j+1) = cap + 1 + j by omega]; exact hres', hc⟩

/-- If some capture of the round confirms, the inner loop returns early with a
confirmed list, provided the matcher never returns an empty list and the
backup write succeeds when enabled. -/
theorem checkMultiInner_confirm
    (m : Nat → Nat → Option (List MatchCandidate)) (acc : ℚ)
    (s : ScriptObject) (round : Nat)
    (hbk : s.is_backup_image = true → s.save_ok = true)
    (hm : ∀ c, m round c ≠ some []) :
    ∀ (fuel cap : Nat) (last : Option (Option (List MatchCandidate))),
      (∃ j, j < fuel ∧ ∃ res, m round (cap + j) = some res ∧
        ∃ c ∈ res, c.confidence > acc) →
      ∃ l, (checkMultiInner m acc s round fuel cap last).1
        = some (Except.ok (some l)) := by
  intro fuel
  induction fuel with
  | zero =>
    rintro cap last ⟨j, hj, _⟩
    omega
  | succ fuel ih =>
    rintro cap last ⟨j, hj, res, hres, hc⟩
    simp only [checkMultiInner]
    cases hm0 : m round cap with
    | none =>
      simp only
      have hj0 : j ≠ 0 := by
        intro h0
        subst h0
        simp only [Nat.add_zero] at hres
        rw [hm0] at hres
        cases hres
      exact ih (cap+1) (some none)
        ⟨j-1, by omega, res, by
          rw [show cap + 1 + (j-1) = cap + j by omega]; exact hres, hc⟩
    | some res0 =>
      have hres0 : res0 ≠ [] := by
        intro h0; subst h0; exact hm cap hm0
      rcases sortedBest_spec res0 hres0 with ⟨b, hb1, _, hbmax⟩
      simp only [hb1]
      by_cases hgt : b.confidence > acc
      · rw [if_pos hgt]
        exact ⟨sortedByConfidence res0, by
          simpa using congrArg some
            (success_epilogue_multi_benign hbk (sortedByConfidence res0))⟩
      · rw [if_neg hgt]
        simp only
        have hj0 : j ≠ 0 := by
          intro h0
          subst h0
          simp only [Nat.add_zero] at hres
          rw [hm0] at hres
          rcases hc with ⟨c, hcmem, hcgt⟩
          have hcres0 : c ∈ res0 := by
            cases hres; exact hcmem
          exact hgt (lt_of_lt_of_le hcgt (hbmax c hcres0))
        exact ih (cap+1) (some (some res0))
          ⟨j-1, by omega, res, by
            rw [show cap + 1 + (j-1) = cap + j by omega]; exact hres, hc⟩

/-- A confirmed return of the multi-capture round loop implies a round and a
capture whose matcher output has a candidate above the threshold. -/
theorem checkMultiLoop_confirmed_exists
    (m : Nat → Nat → Option (List MatchCandidate)) (acc : ℚ)
    (s : ScriptObject) (caps : Nat) :
    ∀ (fuel round : Nat) (last : Option (Option (List MatchCandidate)))
      (l : List MatchCandidate),
      (checkMultiLoop m acc s caps fuel round last).1 = Except.ok (some l) →
      ∃ j, j < fuel ∧ ∃ c, c < caps ∧ ∃ res, m (round + j) c = some res ∧
        ∃ cand ∈ res, cand.confidence > acc := by
  intro fuel
  induction fuel with
  | zero =>
    intro round last l h
    exact absurd h (by simpa [checkMultiLoop] using false_log_ne_confirmed s last l)
  | succ fuel ih =>
    intro round last l h
    simp only [checkMultiLoop] at h
    cases hi : (checkMultiInner m acc s round caps 0 last).1 with
    | some outcome =>
      rw [hi] at h
      simp only at h
      subst h
      rcases checkMultiInner_confirmed_exists m acc s round caps 0 last l hi
        with ⟨c, hc, res, hres, hcand⟩
      exact ⟨0, by omega, c, by omega, res, by simpa using hres, hcand⟩
    | none =>
      rw [hi] at h
      simp only at h
      rcases ih (round+1) _ l h with ⟨j, hj, c, hc, res, hres, hcand⟩
      exact ⟨j+1, by omega, c, hc, res, by
        rw [show round + (j+1) = round + 1 + j by omega]; exact hres, hcand⟩

/-- If some round has a capture that confirms, the multi-capture loop returns
a confirmed list. -/
theorem checkMultiLoop_confirm
    (m : Nat → Nat → Option (List MatchCandidate)) (acc : ℚ)
    (s : ScriptObject) (caps : Nat)
    (hbk : s.is_backup_image = true → s.save_ok = true)
    (hm : ∀ r c, m r c ≠ some []) :
    ∀ (fuel round : Nat) (last : Option (Option (List MatchCandidate))),
      (∃ j, j < fuel ∧ ∃ c, c < caps ∧ ∃ res, m (round + j) c = some res ∧
        ∃ cand ∈ res, cand.confidence > acc) →
      ∃ l, (checkMultiLoop m acc s caps fuel round last).1
        = Except.ok (some l) := by
  intro fuel
  induction fuel with
  | zero =>
    rintro round last ⟨j, hj, _⟩
    omega
  | succ fuel ih =>
    rintro round last ⟨j, hj, c, hc, res, hres, hcand⟩
    simp only [checkMultiLoop]
    by_cases hrow : ∃ c', c' < caps ∧ ∃ res', m round c' = some res' ∧
      ∃ cand ∈ res', cand.confidence > acc
    · rcases hrow with ⟨c', hc', res', hres', hcand'⟩
      rcases checkMultiInner_confirm m acc s round hbk (fun c0 => hm round c0)
        caps 0 last ⟨c', by omega, res', by simpa using hres', hcand'⟩
        with ⟨l, hl⟩
      rw [hl]
      exact ⟨l, rfl⟩
    · have hnone : (checkMultiInner m acc s round caps 0 last).1 = none := by
        apply checkMultiInner_none
        intro j0 hj0 res0 hres0
        constructor
        · intro h0; subst h0; exact hm round (0 + j0) hres0
        · intro cand hcand0
          by_contra hgt
          exact hrow ⟨0 + j0, by omega, res0, hres0, cand, hcand0, not_le.mp hgt⟩
      rw [hnone]
      simp only
      have hj0 : j ≠ 0 := by
        intro h0
        subst h0
        simp only [Nat.add_zero] at hres
        exact hrow ⟨c, hc, res, hres, hcand⟩
      exact ih (round+1) _
        ⟨j-1, by omega, c, hc, res, by
          rw [show round + 1 + (j-1) = round + j by omega]; exact hres, hcand⟩

/-! ### Claim theorems -/

/-- C1: an evaluation of `check_image_recognition` is confirmed (a candidate
list is returned) iff some round's best confidence strictly exceeds
`accuracy_val` — equivalently, iff some round has a candidate whose confidence
strictly exceeds `accuracy_val`; and when every candidate of every round has
confidence at most `accuracy_val` (in particular when the best confidence
equals `accuracy_val`), the function returns `False`. -/
theorem claim_C1 (m : Nat → Option (List MatchCandidate)) (acc : ℚ)
    (s : ScriptObject) (refresh : Bool) (rounds : Nat)
    (hr : 1 ≤ rounds) (hm : ∀ j, m j ≠ some []) (hs : Benign s) :
    ((∃ l, (check_image_recognition m acc s refresh rounds).1
        = Except.ok (some l)) ↔
      (∃ j, j < rounds ∧ ∃ res, m j = some res ∧
        ∃ c ∈ res, c.confidence > acc))
    ∧ ((∀ j, j < rounds → ∀ res, m j = some res →
          ∀ c ∈ res, c.confidence ≤ acc) →
        (check_image_recognition m acc s refresh rounds).1
          = Except.ok none) := by
  constructor
  · constructor
    · rintro ⟨l, hl⟩
      rcases checkLoop_confirmed_exists m acc s refresh rounds 0 none l hl
        with ⟨j, hj, res, hres, hc⟩
      exact ⟨j, hj, res, by simpa using hres, hc⟩
    · rintro ⟨j, hj, res, hres, hc⟩
      exact checkLoop_confirm m acc s refresh rounds 0 none hs hm
        ⟨j, hj, res, by simpa using hres, hc⟩
  · intro hall
    apply checkLoop_all_fail m acc s refresh rounds 0 none hs
    · intro j hj res hres
      refine ⟨?_, hall j hj res (by simpa using hres)⟩
      intro h0
      subst h0
      exact hm _ (by simpa using hres)
    · intro h0
      omega

theorem claim_C1_witness :
    ((∃ l, (check_image_recognition matcherHit (9/10) sBenign true 1).1
        = Except.ok (some l)) ↔
      (∃ j, j < 1 ∧ ∃ res, matcherHit j = some res ∧
        ∃ c ∈ res, c.confidence > 9/10))
    ∧ ((∀ j, j < 1 → ∀ res, matcherHit j = some res →
          ∀ c ∈ res, c.confidence ≤ 9/10) →
        (check_image_recognition matcherHit (9/10) sBenign true 1).1
          = Except.ok none) :=
  claim_C1 matcherHit (9/10) sBenign true 1 (by omega)
    (fun j => by simp [matcherHit])
    ⟨fun h => by simp [sBenign] at h, fun h => by simp [sBenign] at h⟩

/-- C2: for a non-empty candidate list, the candidate selected by
`sorted(_result, key=confidence)[-1]` exists, belongs to the list, and its
confidence is at least every candidate's confidence; and the selected
confidence is invariant under any permutation of the input list. -/
theorem claim_C2 (l : List MatchCandidate) (hl : l ≠ []) :
    (∃ b, (sortedByConfidence l).getLast? = some b ∧ b ∈ l ∧
      ∀ c ∈ l, c.confidence ≤ b.confidence)
    ∧ (∀ l', List.Perm l l' →
        Option.map MatchCandidate.confidence (sortedByConfidence l).getLast?
          = Option.map MatchCandidate.confidence
              (sortedByConfidence l').getLast?) := by
  constructor
  · exact sortedBest_spec l hl
  · intro l' hperm
    have hl' : l' ≠ [] := by
      intro h0
      subst h0
      exact hl hperm.eq_nil
    rcases sortedBest_spec l hl with ⟨b, hb, hbmem, hbmax⟩
    rcases sortedBest_spec l' hl' with ⟨b', hb', hbmem', hbmax'⟩
    rw [hb, hb']
    have h1 : b.confidence ≤ b'.confidence :=
      hbmax' b (hperm.mem_iff.mp hbmem)
    have h2 : b'.confidence ≤ b.confidence :=
      hbmax b' (hperm.mem_iff.mpr hbmem')
    simp [le_antisymm h1 h2]

/-- A concrete two-candidate pool used to instantiate hypotheses. -/
def twoCandidates : List MatchCandidate :=
  [{ result := (0, 0), confidence := 1/2 },
   { result := (1, 1), confidence := 3/4 }]

theorem claim_C2_witness :
    (∃ b, (sortedByConfidence twoCandidates).getLast? = some b ∧
      b ∈ twoCandidates ∧
      ∀ c ∈ twoCandidates, c.confidence ≤ b.confidence)
    ∧ (∀ l', List.Perm twoCandidates l' →
        Option.map MatchCandidate.confidence
          (sortedByConfidence twoCandidates).getLast?
          = Option.map MatchCandidate.confidence
              (sortedByConfidence l').getLast?) :=
  claim_C2 twoCandidates (by simp [twoCandidates])

/-- C9: `_check_image_name_pngFormat` returns its input unchanged whenever
`".png"` occurs anywhere in it as a substring, and otherwise returns the input
with `".png"` appended; in particular `"shot.png.bak"` is returned as-is, and
that result does not end in `".png"`. -/
theorem claim_C9 :
    (∀ s : List Char,
      (containsSub ".png".toList s = true →
        check_image_name_pngFormat s = s)
      ∧ (containsSub ".png".toList s = false →
        check_image_name_pngFormat s = s ++ ".png".toList))
    ∧ check_image_name_pngFormat "shot.png.bak".toList = "shot.png.bak".toList
    ∧ endsWithSub ".png".toList
        (check_image_name_pngFormat "shot.png.bak".toList) = false := by
  refine ⟨?_, ?_, ?_⟩
  · intro s
    constructor
    · intro h
      unfold check_image_name_pngFormat
      rw [h]
      simp
    · intro h
      unfold check_image_name_pngFormat
      rw [h]
      simp
  · decide
  · decide

theorem claim_C9_witness :
    check_image_name_pngFormat "abc".toList = "abc".toList ++ ".png".toList :=
  (claim_C9.1 "abc".toList).2 (by decide)

/-- C10: with `compare_times_counter = 0` no comparison round runs (the event
trace is empty) and `_false_log` reads the never-assigned local `_result`, so
the call raises `NameError` instead of returning `False`. -/
theorem claim_C10 (m : Nat → Option (List MatchCandidate)) (acc : ℚ)
    (s : ScriptObject) (refresh : Bool) :
    check_image_recognition m acc s refresh 0
      = (Except.error PyErr.nameError, []) := rfl

/-- C4: when the evaluation is not confirmed (`check_image_recognition`
returned `False`), `adb_default_tap`, `adb_default_swipe` and
`adb_default_press` issue no touch or swipe device call and return `False`. -/
theorem claim_C4 (m : Nat → Option (List MatchCandidate)) (acc : ℚ)
    (s : ScriptObject) (refresh : Bool) (rounds : Nat) (off : Int × Int)
    (n : Nat)
    (h : (check_image_recognition m acc s refresh rounds).1 = Except.ok none) :
    ((adb_default_tap m acc s refresh rounds off n).1 = Except.ok false
      ∧ ∀ e ∈ (adb_default_tap m acc s refresh rounds off n).2,
          isDeviceAction e = false)
    ∧ ((adb_default_swipe m acc s refresh rounds off n).1 = Except.ok false
      ∧ ∀ e ∈ (adb_default_swipe m acc s refresh rounds off n).2,
          isDeviceAction e = false)
    ∧ ((adb_default_press m acc s refresh rounds n).1 = Except.ok false
      ∧ ∀ e ∈ (adb_default_press m acc s refresh rounds n).2,
          isDeviceAction e = false) := by
  have htap : adb_default_tap m acc s refresh rounds off n
      = (Except.ok false,
         (check_image_recognition m acc s refresh rounds).2) := by
    simp only [adb_default_tap]
    rw [h]
  have hswipe : adb_default_swipe m acc s refresh rounds off n
      = (Except.ok false,
         (check_image_recognition m acc s refresh rounds).2) := by
    simp only [adb_default_swipe]
    rw [h]
  have hpress : adb_default_press m acc s refresh rounds n
      = (Except.ok false,
         (check_image_recognition m acc s refresh rounds).2) := by
    simp only [adb_default_press]
    rw [h]
  refine ⟨⟨by rw [htap], ?_⟩, ⟨by rw [hswipe], ?_⟩, ⟨by rw [hpress], ?_⟩⟩
  · intro e he
    rw [htap] at he
    exact checkLoop_no_device_action m acc s refresh rounds 0 none e he
  · intro e he
    rw [hswipe] at he
    exact checkLoop_no_device_action m acc s refresh rounds 0 none e he
  · intro e he
    rw [hpress] at he
    exact checkLoop_no_device_action m acc s refresh rounds 0 none e he

theorem claim_C4_witness :
    ((adb_default_tap matcherMiss (9/10) sBenign true 1 (3, 4) 2).1
        = Except.ok false
      ∧ ∀ e ∈ (adb_default_tap matcherMiss (9/10) sBenign true 1 (3, 4) 2).2,
          isDeviceAction e = false)
    ∧ ((adb_default_swipe matcherMiss (9/10) sBenign true 1 (3, 4) 2).1
        = Except.ok false
      ∧ ∀ e ∈ (adb_default_swipe matcherMiss (9/10) sBenign true 1 (3, 4) 2).2,
          isDeviceAction e = false)
    ∧ ((adb_default_press matcherMiss (9/10) sBenign true 1 2).1
        = Except.ok false
      ∧ ∀ e ∈ (adb_default_press matcherMiss (9/10) sBenign true 1 2).2,
          isDeviceAction e = false) :=
  claim_C4 matcherMiss (9/10) sBenign true 1 (3, 4) 2 rfl

/-- C5: as soon as round `d` is the first to produce a best candidate whose
confidence exceeds `accuracy_val`, `check_image_recognition` returns that
round's result immediately: its whole trace consists of the events of rounds
`0..d`, so no screenshot, file read or matcher invocation of any later round
occurs. -/
theorem claim_C5 (m : Nat → Option (List MatchCandidate)) (acc : ℚ)
    (s : ScriptObject) (refresh : Bool) (rounds d : Nat)
    (res : List MatchCandidate)
    (hd : d < rounds)
    (hfirst : ∀ j, j < d → NoSuccess (m j) acc)
    (hres : m d = some res) (hc : ∃ c ∈ res, c.confidence > acc) :
    check_image_recognition m acc s refresh rounds
      = (success_epilogue s (sortedByConfidence res),
         roundTrace refresh 0 (d+1))
    ∧ (∀ e ∈ (check_image_recognition m acc s refresh rounds).2,
        ∀ i, eventRound e = some i → i ≤ d) := by
  have h1 := checkLoop_first_success m acc s refresh d rounds 0 none res hd
    (fun j hj => by simpa using hfirst j hj)
    (by simpa using hres) hc
  refine ⟨h1, ?_⟩
  have h2 : (check_image_recognition m acc s refresh rounds).2
      = roundTrace refresh 0 (d+1) := by
    rw [show check_image_recognition m acc s refresh rounds = _ from h1]
  intro e he i hie
  rw [h2] at he
  have h3 := (mem_roundTrace he).2 i hie
  omega

/-- A matcher oracle whose round 0 stays below the threshold and whose later
rounds exceed it. -/
def matcherLate : Nat → Option (List MatchCandidate)
  | 0 => some [{ result := (0, 0), confidence := 1/2 }]
  | _ => some [{ result := (10, 20), confidence := 95/100 }]

theorem claim_C5_witness :
    check_image_recognition matcherLate (9/10) sBenign true 3
      = (success_epilogue sBenign
          (sortedByConfidence [{ result := (10, 20), confidence := 95/100 }]),
         roundTrace true 0 2)
    ∧ (∀ e ∈ (check_image_recognition matcherLate (9/10) sBenign true 3).2,
        ∀ i, eventRound e = some i → i ≤ 1) :=
  claim_C5 matcherLate (9/10) sBenign true 3 1
    [{ result := (10, 20), confidence := 95/100 }]
    (by omega)
    (fun j hj => by
      have hj0 : j = 0 := by omega
      subst hj0
      intro rj hrj
      simp only [matcherLate] at hrj
      constructor
      · intro h0
        rw [h0] at hrj
        cases hrj
      · intro c hcmem
        have : rj = [{ result := (0, 0), confidence := (1:ℚ)/2 }] :=
          (Option.some.inj hrj).symm
        subst this
        simp at hcmem
        subst hcmem
        norm_num)
    rfl
    ⟨{ result := (10, 20), confidence := 95/100 }, by simp, by norm_num⟩

/-- C6: for a confirmed evaluation consumed by `adb_default_tap`, every touch
is issued at the matched candidate's position plus the caller-supplied offset,
componentwise over the integers; with offset `(0, 0)` the tapped position is
the candidate's position exactly. -/
theorem claim_C6 (m : Nat → Option (List MatchCandidate)) (acc : ℚ)
    (s : ScriptObject) (refresh : Bool) (rounds : Nat) (off : Int × Int)
    (n : Nat) (l : List MatchCandidate) (c : MatchCandidate)
    (h : (check_image_recognition m acc s refresh rounds).1
      = Except.ok (some l))
    (hc : l.getLast? = some c) :
    ((adb_default_tap m acc s refresh rounds off n).1 = Except.ok true
      ∧ (adb_default_tap m acc s refresh rounds off n).2
        = (check_image_recognition m acc s refresh rounds).2
          ++ tapCalls (addOffset c.result off) n)
    ∧ (∀ p, Event.touch p ∈ (adb_default_tap m acc s refresh rounds off n).2 →
        p = addOffset c.result off)
    ∧ (off = (0, 0) →
        ∀ p, Event.touch p ∈ (adb_default_tap m acc s refresh rounds off n).2 →
          p = c.result) := by
  have htap : adb_default_tap m acc s refresh rounds off n
      = (Except.ok true,
         (check_image_recognition m acc s refresh rounds).2
           ++ tapCalls (addOffset c.result off) n) := by
    simp only [adb_default_tap]
    rw [h]
    simp only
    rw [hc]
  have hmem : ∀ p, Event.touch p ∈ (adb_default_tap m acc s refresh rounds off n).2 →
      p = addOffset c.result off := by
    intro p hp
    rw [htap] at hp
    rcases List.mem_append.mp hp with h1 | h1
    · have := checkLoop_no_device_action m acc s refresh rounds 0 none _ h1
      simp [isDeviceAction] at this
    · rcases mem_tapCalls h1 with h2 | h2
      · cases h2
      · exact (Event.touch.injEq _ _).mp h2
  refine ⟨⟨by rw [htap], by rw [htap]⟩, hmem, ?_⟩
  intro hoff p hp
  have := hmem p hp
  subst hoff
  rw [this]
  show (c.result.1 + 0, c.result.2 + 0) = c.result
  simp

theorem claim_C6_witness :
    ((adb_default_tap matcherHit (9/10) sBenign true 1 (3, 4) 2).1
        = Except.ok true
      ∧ (adb_default_tap matcherHit (9/10) sBenign true 1 (3, 4) 2).2
        = (check_image_recognition matcherHit (9/10) sBenign true 1).2
          ++ tapCalls (addOffset (10, 20) (3, 4)) 2)
    ∧ (∀ p, Event.touch p
        ∈ (adb_default_tap matcherHit (9/10) sBenign true 1 (3, 4) 2).2 →
        p = addOffset (10, 20) (3, 4))
    ∧ ((3, 4) = ((0 : Int), (0 : Int)) →
        ∀ p, Event.touch p
          ∈ (adb_default_tap matcherHit (9/10) sBenign true 1 (3, 4) 2).2 →
          p = (10, 20)) :=
  claim_C6 matcherHit (9/10) sBenign true 1 (3, 4) 2
    [{ result := (10, 20), confidence := 95/100 }]
    { result := (10, 20), confidence := 95/100 }
    (by norm_num [check_image_recognition, checkLoop, roundEvents, matcherHit,
      sortedByConfidence, success_epilogue, send_log_to_ui,
      send_image_path_to_ui, back_up_image, sBenign, confLe, List.mergeSort])
    rfl

/-- The tap dispatch loop is `n` copies of "sleep, then touch": a sleep
precedes every touch, the first included. -/
theorem tapCalls_eq_flatten (pos : Int × Int) :
    ∀ n : Nat, tapCalls pos n
      = (List.replicate n [Event.sleepEv, Event.touch pos]).flatten := by
  intro n
  induction n with
  | zero => rfl
  | succ n ih =>
    rw [tapCalls, List.replicate_succ, List.flatten_cons, ih]
    rfl

/-- C7 counterexample: with one repetition, the dispatch portion of the trace
of `adb_default_tap` is `[sleep, touch]` — a sleep occurs before the first
touch — whereas the claimed shape (`specTapCalls`, sleeping only before
repetitions after the first) is `[touch]`. -/
theorem claim_C7_counterexample :
    (adb_default_tap matcherHit (9/10) sBenign true 1 (0, 0) 1).2
      = [Event.sleepEv, Event.snapshot 0, Event.matchCall 0,
         Event.sleepEv, Event.touch (10, 20)]
    ∧ tapCalls (10, 20) 1 ≠ specTapCalls (10, 20) 1 := by
  constructor
  · norm_num [adb_default_tap, check_image_recognition, checkLoop, roundEvents,
      matcherHit, sortedByConfidence, success_epilogue, send_log_to_ui,
      send_image_path_to_ui, back_up_image, sBenign, confLe, List.mergeSort,
      tapCalls, addOffset]
  · decide

/-- C7 amended: for a confirmed tap dispatch with `n` repetitions,
`adb_default_tap` issues exactly `n` touch calls, all at the final position,
and the inter-repetition delay sleep occurs before every repetition, the
first included (not only before repetitions after the first). -/
theorem claim_C7_amended (m : Nat → Option (List MatchCandidate)) (acc : ℚ)
    (s : ScriptObject) (refresh : Bool) (rounds : Nat) (off : Int × Int)
    (n : Nat) (l : List MatchCandidate) (c : MatchCandidate)
    (h : (check_image_recognition m acc s refresh rounds).1
      = Except.ok (some l))
    (hc : l.getLast? = some c) :
    (((adb_default_tap m acc s refresh rounds off n).2.filter
        isTouchEvent).length = n)
    ∧ (∀ p, Event.touch p ∈ (adb_default_tap m acc s refresh rounds off n).2 →
        p = addOffset c.result off)
    ∧ (adb_default_tap m acc s refresh rounds off n).2
        = (check_image_recognition m acc s refresh rounds).2
          ++ (List.replicate n
                [Event.sleepEv, Event.touch (addOffset c.result off)]).flatten := by
  have htap : adb_default_tap m acc s refresh rounds off n
      = (Except.ok true,
         (check_image_recognition m acc s refresh rounds).2
           ++ tapCalls (addOffset c.result off) n) := by
    simp only [adb_default_tap]
    rw [h]
    simp only
    rw [hc]
  have hnil : (check_image_recognition m acc s refresh rounds).2.filter
      isTouchEvent = [] := by
    rw [List.filter_eq_nil_iff]
    intro e he
    have := checkLoop_no_device_action m acc s refresh rounds 0 none e he
    cases e <;> simp_all [isDeviceAction, isTouchEvent]
  refine ⟨?_, ?_, ?_⟩
  · rw [htap]
    show (((check_image_recognition m acc s refresh rounds).2
      ++ tapCalls (addOffset c.result off) n).filter isTouchEvent).length = n
    rw [List.filter_append, hnil, List.nil_append]
    exact tapCalls_filter_touch _ n
  · intro p hp
    rw [htap] at hp
    rcases List.mem_append.mp hp with h1 | h1
    · have := checkLoop_no_device_action m acc s refresh rounds 0 none _ h1
      simp [isDeviceAction] at this
    · rcases mem_tapCalls h1 with h2 | h2
      · cases h2
      · exact (Event.touch.injEq _ _).mp h2
  · rw [htap, tapCalls_eq_flatten]

theorem claim_C7_amended_witness :
    (((adb_default_tap matcherHit (9/10) sBenign true 1 (1, 2) 2).2.filter
        isTouchEvent).length = 2)
    ∧ (∀ p, Event.touch p
        ∈ (adb_default_tap matcherHit (9/10) sBenign true 1 (1, 2) 2).2 →
        p = addOffset (10, 20) (1, 2))
    ∧ (adb_default_tap matcherHit (9/10) sBenign true 1 (1, 2) 2).2
        = (check_image_recognition matcherHit (9/10) sBenign true 1).2
          ++ (List.replicate 2
                [Event.sleepEv, Event.touch (addOffset (10, 20) (1, 2))]).flatten :=
  claim_C7_amended matcherHit (9/10) sBenign true 1 (1, 2) 2
    [{ result := (10, 20), confidence := 95/100 }]
    { result := (10, 20), confidence := 95/100 }
    (by norm_num [check_image_recognition, checkLoop, roundEvents, matcherHit,
      sortedByConfidence, success_epilogue, send_log_to_ui,
      send_image_path_to_ui, back_up_image, sBenign, confLe, List.mergeSort])
    rfl

/-- C8 counterexample: with backups enabled and an unwritable backup store, a
confirmed evaluation of `check_image_recognition` raises the backup write
failure instead of returning the candidate list — the failure is propagated,
not swallowed. -/
theorem claim_C8_counterexample :
    (check_image_recognition matcherHit (9/10) sBackupFail true 1).1
      = Except.error PyErr.backupError := by
  norm_num [check_image_recognition, checkLoop, roundEvents, matcherHit,
    sortedByConfidence, success_epilogue, send_log_to_ui,
    send_image_path_to_ui, back_up_image, sBackupFail, confLe, List.mergeSort]

/-- C8 amended: a missing (falsy) UI surface is silently a no-op in
`_send_log_to_ui` / `_send_image_path_to_ui`; but the recorder side effects
are not exception-safe — when backups are enabled and the backup write fails,
the failure propagates out of a confirmed `check_image_recognition`
evaluation as an exception instead of leaving its return value unchanged. -/
theorem claim_C8_amended (s : ScriptObject) (hui : s.ui_truthy = false) :
    (send_log_to_ui s = Except.ok () ∧ send_image_path_to_ui s = Except.ok ())
    ∧ (∀ (m : Nat → Option (List MatchCandidate)) (acc : ℚ) (refresh : Bool)
        (rounds d : Nat) (res : List MatchCandidate),
        s.is_backup_image = true → s.save_ok = false →
        d < rounds →
        (∀ j, j < d → NoSuccess (m j) acc) →
        m d = some res → (∃ c ∈ res, c.confidence > acc) →
        (check_image_recognition m acc s refresh rounds).1
          = Except.error PyErr.backupError) := by
  refine ⟨⟨by simp [send_log_to_ui, hui], by simp [send_image_path_to_ui, hui]⟩, ?_⟩
  intro m acc refresh rounds d res hbk hsv hd hfirst hres hc
  have h1 := checkLoop_first_success m acc s refresh d rounds 0 none res hd
    (fun j hj => by simpa using hfirst j hj)
    (by simpa using hres) hc
  have h2 : (check_image_recognition m acc s refresh rounds).1
      = success_epilogue s (sortedByConfidence res) := by
    rw [show check_image_recognition m acc s refresh rounds = _ from h1]
  rw [h2]
  simp [success_epilogue, send_log_to_ui, send_image_path_to_ui,
    back_up_image, hui, hbk, hsv]

theorem claim_C8_amended_witness :
    (send_log_to_ui sBackupFail = Except.ok ()
      ∧ send_image_path_to_ui sBackupFail = Except.ok ())
    ∧ (∀ (m : Nat → Option (List MatchCandidate)) (acc : ℚ) (refresh : Bool)
        (rounds d : Nat) (res : List MatchCandidate),
        sBackupFail.is_backup_image = true → sBackupFail.save_ok = false →
        d < rounds →
        (∀ j, j < d → NoSuccess (m j) acc) →
        m d = some res → (∃ c ∈ res, c.confidence > acc) →
        (check_image_recognition m acc sBackupFail refresh rounds).1
          = Except.error PyErr.backupError) :=
  claim_C8_amended sBackupFail rfl

/-- C3 counterexample: in multi-capture mode with two captures in one round
(capture 0 best `95/100` and capture 1 best `99/100`, threshold `9/10`), the
source returns capture 0's candidate — it does not pool the candidates across
captures, which would select the `99/100` candidate (`evaluate_pooled`, the
spec's pooling evaluator). -/
theorem claim_C3_counterexample :
    (check_image_recognition_multi matcherTwoCaps (9/10) sBenign 2 1).1
      = Except.ok (some [{ result := (1, 1), confidence := 95/100 }])
    ∧ evaluate_pooled matcherTwoCaps 2 (9/10) 1 0
      = some { result := (2, 2), confidence := 99/100 }
    ∧ (95/100 : ℚ) ≠ 99/100 := by
  refine ⟨?_, ?_, by norm_num⟩
  · norm_num [check_image_recognition_multi, checkMultiLoop, checkMultiInner,
      matcherTwoCaps, sortedByConfidence, success_epilogue_multi,
      back_up_image, sBenign, confLe, List.mergeSort, List.range_succ]
  · norm_num [evaluate_pooled, pooledCandidates, matcherTwoCaps,
      sortedByConfidence, confLe, List.mergeSort]

/-- C3 amended: in multi-capture mode the source evaluates each capture's
candidates independently, in capture order, returning the first capture whose
own best confidence exceeds `accuracy_val`; the confirmed/not-confirmed
outcome nevertheless coincides with comparing the pooled maximum confidence
across the round's captures against `accuracy_val` (some pooled candidate
exceeds the threshold iff some capture's own best does), though the returned
candidate need not be the pooled maximum. -/
theorem claim_C3_amended (m : Nat → Nat → Option (List MatchCandidate))
    (acc : ℚ) (s : ScriptObject) (caps rounds : Nat)
    (hm : ∀ r c, m r c ≠ some [])
    (hbk : s.is_backup_image = true → s.save_ok = true) :
    (∃ l, (check_image_recognition_multi m acc s caps rounds).1
      = Except.ok (some l))
    ↔ (∃ r, r < rounds ∧
        ∃ cand ∈ pooledCandidates m caps r, cand.confidence > acc) := by
  have heq : (check_image_recognition_multi m acc s caps rounds).1
      = (checkMultiLoop m acc s caps rounds 0 none).1 := rfl
  rw [heq]
  constructor
  · rintro ⟨l, hl⟩
    rcases checkMultiLoop_confirmed_exists m acc s caps rounds 0 none l hl
      with ⟨r, hr, c, hc, res, hres, cand, hcand, hgt⟩
    refine ⟨r, hr, cand, ?_, hgt⟩
    rw [mem_pooledCandidates]
    exact ⟨c, hc, res, by simpa using hres, hcand⟩
  · rintro ⟨r, hr, cand, hmem, hgt⟩
    rw [mem_pooledCandidates] at hmem
    rcases hmem with ⟨c, hc, res, hres, hcand⟩
    exact checkMultiLoop_confirm m acc s caps hbk hm rounds 0 none
      ⟨r, hr, c, hc, res, by simpa using hres, cand, hcand, hgt⟩

theorem claim_C3_amended_witness :
    (∃ l, (check_image_recognition_multi matcherTwoCaps (9/10) sBenign 2 1).1
      = Except.ok (some l))
    ↔ (∃ r, r < 1 ∧
        ∃ cand ∈ pooledCandidates matcherTwoCaps 2 r,
          cand.confidence > 9/10) :=
  claim_C3_amended matcherTwoCaps (9/10) sBenign 2 1
    (by
      intro r c
      rcases r with _ | r
      · rcases c with _ | _ | c <;> simp [matcherTwoCaps]
      · simp [matcherTwoCaps])
    (fun hb => by simp [sBenign] at hb)

end Airtest
